import Mathlib

/-!
Verification of the cephiq-lite envelope-driven agent runtime.

Shallow embedding of the Python sources:
  cephiq_lite/envelope.py  (validate_envelope, normalize_envelope,
                            parse_llm_response, create_error_envelope)
  cephiq_lite/llm.py       (LLMClient.decide)
  cephiq_lite/agent.py     (Agent.run, Agent._check_budgets,
                            Agent._execute_single_tool)
  cephiq_lite/tools.py     (ToolExecutor.execute_batch)
  cephiq_lite/tags.py      (TagManager.resolve_tags_for_user,
                            get_allowed_tools, validate_tool_access)
  orchestrator/tools_stub.py (execute_envelope_tool)

Python values flowing through these functions are JSON-like: None, bools,
numbers, strings, lists and dicts.  They are modelled by the inductive
type Json below; numbers are modelled by Rat (the comparisons the code
performs on numbers are order comparisons, which Rat models exactly for
every value the code constructs).  Python dicts are modelled as
insertion-ordered association lists with unique keys; dict lookup is
first-match lookup, dict assignment replaces the first binding of the key
or appends a new binding at the end, exactly the observable behaviour of
insertion-ordered Python dicts.  Statements that can raise a Python
exception are modelled in the Except monad.
-/

/-- JSON-like Python value (None, bool, int/float, str, list, dict). -/
inductive Json where
  | null : Json
  | bool (b : Bool) : Json
  | num (q : Rat) : Json
  | str (s : String) : Json
  | arr (items : List Json) : Json
  | obj (fields : List (String × Json)) : Json

namespace Json

/-- First-match lookup in an association list (Python dict lookup). -/
def lookupF (fields : List (String × Json)) (k : String) : Option Json :=
  match fields with
  | [] => none
  | (k', v) :: rest => if k' = k then some v else lookupF rest k

/-- Python `d[k] = v` on a dict: replace the first binding of `k`,
    or append a new binding at the end (insertion order). -/
def setKey (fields : List (String × Json)) (k : String) (v : Json) :
    List (String × Json) :=
  match fields with
  | [] => [(k, v)]
  | (k', v') :: rest =>
      if k' = k then (k', v) :: rest else (k', v') :: setKey rest k v

/-- Python `k in d` on a dict. -/
def hasKeyF (fields : List (String × Json)) (k : String) : Bool :=
  (lookupF fields k).isSome

/-- Python `envelope.get(k)` / `k in envelope` on a Json value known
    to be a dict; `none` when the value is not a dict. -/
def lookup : Json → String → Option Json
  | .obj fields, k => lookupF fields k
  | _, _ => none

def hasKey (j : Json) (k : String) : Bool :=
  (j.lookup k).isSome

def isObj : Json → Bool
  | .obj _ => true
  | _ => false

/-- Python truthiness: None, False, 0, empty string/list/dict are falsy. -/
def truthy : Json → Bool
  | .null => false
  | .bool b => b
  | .num q => q != 0
  | .str s => s ≠ ""
  | .arr items => !items.isEmpty
  | .obj fields => !fields.isEmpty

/-- Python `x == "s"` for a JSON value `x` and string literal `"s"`. -/
def isStrEq : Json → String → Bool
  | .str s, t => s = t
  | _, _ => false

/-- Rendering used where the Python code interpolates a value into an
    f-string via str().  The exact text never matters for the claims;
    only emptiness/length of error lists does. -/
def pystr : Json → String
  | .null => "None"
  | .bool true => "True"
  | .bool false => "False"
  | .num q => toString q
  | .str s => s
  | .arr _ => "[...]"
  | .obj _ => "\x7b...\x7d"

/-- Python `len(x)`: defined for strings, lists and dicts; raises
    TypeError on None, bools and numbers. -/
def pyLen : Json → Except String Nat
  | .str s => .ok s.length
  | .arr items => .ok items.length
  | .obj fields => .ok fields.length
  | _ => .error "TypeError: object has no len()"

end Json

/-! ## envelope.py : schema constants -/

/-- ENVELOPE_SCHEMA["states"] from envelope.py. -/
def SCHEMA_STATES : List String :=
  ["reply", "tool", "tools", "plan", "error", "clarify", "confirm", "reflect"]

/-- ENVELOPE_SCHEMA["stop_reasons"] from envelope.py. -/
def SCHEMA_STOP_REASONS : List String :=
  ["user_reply", "task_done", "need_approval", "need_input", "error",
   "dead_end", "budget_exhausted"]

/-! ## envelope.py : validate_envelope

The Python function accumulates a list of error strings and finally
returns `(len(errors) == 0, errors)`; its two early returns both return
`(False, nonempty-errors)`, which also equals `(len(errors) == 0, errors)`
there.  We therefore translate the error-list computation as
`validate_errors` and pair it with its emptiness flag in
`validate_envelope`.  Statements that can raise are modelled in `Except`:
line 60 (`meta.get("continue")`) raises AttributeError whenever `meta` is
not a dict, line 106 (the unguarded membership test
`"question" not in envelope.get("clarify", empty)`) raises TypeError when
the clarify value is not iterable, and line 125
(`len(envelope["brief_rationale"])`) raises TypeError when that value has
no len(). -/

/-- Envelope state check (envelope.py lines 45-48). -/
def stateErrs (state : Json) : List String :=
  if (match state with | .str s => decide (s ∈ SCHEMA_STATES) | _ => false) then
    []
  else
    ["Invalid state: " ++ state.pystr ++ ". Must be one of the schema states"]

/-- meta.continue check (envelope.py lines 50-57), for a dict meta. -/
def metaErrs (mfields : List (String × Json)) : List String :=
  match Json.lookupF mfields "continue" with
  | none => ["meta.continue is required"]
  | some (.bool _) => []
  | some _ => ["meta.continue must be a boolean"]

/-- stop_reason check (envelope.py lines 59-64):
    the test of meta.get("continue") is False. -/
def stopErrs (mfields : List (String × Json)) : List String :=
  match Json.lookupF mfields "continue" with
  | some (.bool false) =>
      (match Json.lookupF mfields "stop_reason" with
       | none => ["meta.stop_reason required when continue=false"]
       | some sr =>
           if (match sr with
               | .str s => decide (s ∈ SCHEMA_STOP_REASONS)
               | _ => false) then
             []
           else ["Invalid stop_reason: " ++ sr.pystr])
  | _ => []

/-- Python `sub in text` (substring containment). -/
def pyContains (sub : List Char) : List Char → Bool
  | [] => sub.isPrefixOf ([] : List Char)
  | c :: rest => sub.isPrefixOf (c :: rest) || pyContains sub rest

/-- Python membership test `s in x` on an arbitrary value, as used with
    no isinstance guard at envelope.py line 106: key test on dicts,
    substring test on strings, element test on lists (a string compares
    equal only to an equal string), TypeError on None, bools and
    numbers. -/
def pyIn (s : String) : Json → Except String Bool
  | .obj f => .ok (Json.hasKeyF f s)
  | .str t => .ok (pyContains s.toList t.toList)
  | .arr items => .ok (items.any (fun j => j.isStrEq s))
  | _ => .error "TypeError: argument is not iterable"

/-- State-specific validation (envelope.py lines 66-115); raises
    (models TypeError) when the unguarded membership test of line 106
    is reached with a non-iterable clarify value. -/
def specErrs (envelope state : Json) : Except String (List String) :=
  if state.isStrEq "tool" then
    .ok ((if envelope.hasKey "tool" then []
     else ["state=tool requires \x27tool\x27 field"]) ++
    (if envelope.hasKey "arguments" then []
     else ["state=tool requires \x27arguments\x27 field"]))
  else if state.isStrEq "tools" then
    .ok (match envelope.lookup "tools" with
    | none => ["state=tools requires \x27tools\x27 field"]
    | some (.arr toolItems) =>
        (toolItems.enum.map (fun ⟨idx, item⟩ =>
          match item with
          | .obj f =>
              (if Json.hasKeyF f "tool" then []
               else ["tools[" ++ toString idx ++ "] missing \x27tool\x27 field"]) ++
              (if Json.hasKeyF f "arguments" then []
               else ["tools[" ++ toString idx ++ "] missing \x27arguments\x27 field"]) ++
              (if Json.hasKeyF f "tool_id" then []
               else ["tools[" ++ toString idx ++ "] missing \x27tool_id\x27 field"])
          | _ => ["tools[" ++ toString idx ++ "] must be a dict"])).flatten
    | some _ => ["\x27tools\x27 must be a list"])
  else if state.isStrEq "reply" then
    .ok (match envelope.lookup "conversation" with
    | none => ["state=reply requires \x27conversation\x27 field"]
    | some (.obj cf) =>
        if Json.hasKeyF cf "utterance" then []
        else ["conversation.utterance is required"]
    | some _ => ["\x27conversation\x27 must be a dict"])
  else if state.isStrEq "error" then
    .ok (if envelope.hasKey "error" then []
    else ["state=error requires \x27error\x27 field"])
  else if state.isStrEq "clarify" then
    -- line 106: "question" not in envelope.get("clarify", empty), with
    -- no isinstance guard; the elif only fires when "clarify" is
    -- present, so the membership test runs on the stored value and
    -- raises TypeError when that value is not iterable.
    match envelope.lookup "clarify" with
    | none => .ok ["state=clarify requires \x27clarify\x27 field"]
    | some v =>
        match pyIn "question" v with
        | .error e => .error e
        | .ok true => .ok []
        | .ok false => .ok ["clarify.question is required"]
  else if state.isStrEq "confirm" then
    .ok (if envelope.hasKey "confirm" then []
    else ["state=confirm requires \x27confirm\x27 field"])
  else if state.isStrEq "plan" then
    .ok (if envelope.hasKey "plan" then []
    else ["state=plan requires \x27plan\x27 field"])
  else .ok []

/-- Confidence range check (envelope.py lines 117-121); Python bools are
    ints, so .bool values are in-range (0 or 1) and raise no error. -/
def confErrs (mfields : List (String × Json)) : List String :=
  match Json.lookupF mfields "confidence" with
  | none => []
  | some .null => []
  | some (.num q) =>
      if q < 0 ∨ q > 1 then ["meta.confidence must be between 0 and 1"]
      else []
  | some (.bool _) => []
  | some _ => ["meta.confidence must be between 0 and 1"]

/-- Errors from the state-specific and meta validation (envelope.py lines
    45-121), for a dict envelope that contains both "state" and "meta",
    in the order the Python code appends them.  Raises (models Python
    AttributeError at line 60, meta.get on a non-dict) when meta is not
    a dict; the "meta must be a dict" error never escapes. -/
def coreErrors (envelope : Json) : Except String (List String) :=
  let state := (envelope.lookup "state").getD .null
  match (envelope.lookup "meta").getD .null with
  | .obj mfields =>
      match specErrs envelope state with
      | .error e => .error e
      | .ok spec =>
          .ok (stateErrs state ++ metaErrs mfields ++ stopErrs mfields ++
               spec ++ confErrs mfields)
  | _ => .error "AttributeError: meta has no attribute get"

/-- brief_rationale length validation (envelope.py lines 123-126).
    Raises (models TypeError) when the value has no len(). -/
def briefErrors (envelope : Json) : Except String (List String) :=
  match envelope.lookup "brief_rationale" with
  | none => .ok []
  | some v =>
      match v.pyLen with
      | .error e => .error e
      | .ok n =>
          .ok (if n > 220 then ["brief_rationale must be <= 220 characters"]
               else [])

/-- The error list computed by validate_envelope (envelope.py 22-128). -/
def validate_errors (envelope : Json) : Except String (List String) :=
  match envelope with
  | .obj fields =>
      let missing :=
        (if Json.hasKeyF fields "state" then []
         else ["Missing required field: state"]) ++
        (if Json.hasKeyF fields "meta" then []
         else ["Missing required field: meta"])
      if missing ≠ [] then .ok missing
      else
        match coreErrors (.obj fields) with
        | .error e => .error e
        | .ok core =>
            match briefErrors (.obj fields) with
            | .error e => .error e
            | .ok brief => .ok (core ++ brief)
  | _ => .ok ["Envelope must be a dict"]

/-- envelope.py validate_envelope: returns (valid, errors); every return
    site pairs the error list with its emptiness. -/
def validate_envelope (envelope : Json) : Except String (Bool × List String) :=
  match validate_errors envelope with
  | .error e => .error e
  | .ok errs => .ok (errs.isEmpty, errs)

/-! ## envelope.py : normalize_envelope -/

/-- One element of the tools array in normalize_envelope's loop
    (envelope.py lines 149-152): synthesise tool_id when missing or
    falsy. -/
def normalizeToolItem (idx : Nat) (item : Json) : Json :=
  match item with
  | .obj f =>
      match Json.lookupF f "tool_id" with
      | some v => if v.truthy then .obj f
                  else .obj (Json.setKey f "tool_id" (.str ("tool_" ++ toString idx)))
      | none => .obj (Json.setKey f "tool_id" (.str ("tool_" ++ toString idx)))
  | _ => item

/-- First block of normalize_envelope (envelope.py lines 140-143):
    ensure meta.confidence exists (the Python code mutates the nested
    meta dict in place; the value-level effect is the meta entry
    extended with a trailing ("confidence", None) binding). -/
def ensureMetaConfidence (fields : List (String × Json)) :
    List (String × Json) :=
  match Json.lookupF fields "meta" with
  | some (.obj m) =>
      if Json.hasKeyF m "confidence" then fields
      else Json.setKey fields "meta" (.obj (m ++ [("confidence", .null)]))
  | _ => fields

/-- Second block of normalize_envelope (envelope.py lines 145-152):
    auto-generate tool_ids if missing. -/
def ensureToolIds (fields : List (String × Json)) : List (String × Json) :=
  if ((Json.lookupF fields "state").getD .null).isStrEq "tools" ∧
      Json.hasKeyF fields "tools" then
    match Json.lookupF fields "tools" with
    | some (.arr toolItems) =>
        Json.setKey fields "tools"
          (.arr (toolItems.enum.map (fun p => normalizeToolItem p.1 p.2)))
    | _ => fields
  else fields

/-- envelope.py normalize_envelope (lines 131-154).  dict(envelope)
    raises TypeError when the argument is not a dict (the Python call
    also accepts iterables of pairs; no claim depends on that case and
    the error branch models every non-dict uniformly). -/
def normalize_envelope (envelope : Json) : Except String Json :=
  match envelope with
  | .obj fields => .ok (.obj (ensureToolIds (ensureMetaConfidence fields)))
  | _ => .error "TypeError: normalize_envelope argument is not a dict"

/-- envelope.py create_error_envelope (lines 216-229). -/
def create_error_envelope (error_message : String)
    (error_type : String := "parse_error") : Json :=
  .obj [("state", .str "error"),
        ("brief_rationale", .str "Failed to parse LLM response"),
        ("error", .obj [("error_type", .str error_type),
                        ("error_message", .str error_message)]),
        ("meta", .obj [("continue", .bool false),
                       ("stop_reason", .str "error")])]

/-! ## envelope.py : parse_llm_response

Python's `json.loads` is a standard-library function, not part of this
repository; it is modelled as an explicit parameter
`loads : String → Option Json` (`none` models json.JSONDecodeError,
which is the only exception the call raises on string input and which
every call site here catches).  The string searching and slicing of the
Python code is translated over the character list of the text. -/

/-- Python str.find(sub, start): smallest index `i ≥ start` at which
    `sub` occurs in `text`, else -1 (the code only searches for
    non-empty patterns). -/
def pyFindFromAux (sub : List Char) : List Char → Nat → Int
  | cs, i =>
      if sub.isPrefixOf cs then (i : Int)
      else
        match cs with
        | [] => -1
        | _ :: rest => pyFindFromAux sub rest (i + 1)

def pyFindFrom (text sub : List Char) (start : Nat) : Int :=
  pyFindFromAux sub (text.drop start) start

/-- Characters removed by Python str.strip() with no arguments
    (whitespace; the ASCII whitespace set suffices for the JSON slices
    this code strips). -/
def isPySpace (c : Char) : Bool :=
  c = ' ' || c = '\t' || c = '\n' || c = '\r' || c = '\x0b' || c = '\x0c'

/-- Python str.strip(). -/
def pyStrip (cs : List Char) : List Char :=
  (cs.dropWhile isPySpace).reverse.dropWhile isPySpace |>.reverse

/-- Strategy 3 of parse_llm_response (envelope.py lines 194-211): scan
    the text, tracking `brace_count` and `start_idx`, and try to parse
    each balanced outermost brace span. -/
def braceScan (loads : String → Option Json) (full : List Char) :
    List Char → Nat → Int → Int → Option Json
  | [], _, _, _ => none
  | c :: rest, idx, brace_count, start_idx =>
      if c = '\x7b' then
        let start_idx' := if brace_count = 0 then (idx : Int) else start_idx
        braceScan loads full rest (idx + 1) (brace_count + 1) start_idx'
      else if c = '\x7d' then
        let bc := brace_count - 1
        if bc = 0 ∧ start_idx ≠ -1 then
          let json_text :=
            String.mk ((full.drop start_idx.toNat).take (idx + 1 - start_idx.toNat))
          match loads json_text with
          | some envelope => some envelope
          | none => braceScan loads full rest (idx + 1) bc start_idx
        else braceScan loads full rest (idx + 1) bc start_idx
      else braceScan loads full rest (idx + 1) brace_count start_idx

/-- envelope.py parse_llm_response (lines 157-213).  Returns
    `.inr envelope` for Python's `(True, envelope)` and `.inl message`
    for `(False, message)`. -/
def parse_llm_response (loads : String → Option Json) (text : String) :
    String ⊕ Json :=
  -- Strategy 1: direct parse
  match loads text with
  | some envelope => .inr envelope
  | none =>
    let cs := text.toList
    -- Strategy 2: markdown code blocks
    let s2 : Option Json :=
      if pyContains "```json".toList cs || pyContains "```".toList cs then
        let start0 := pyFindFrom cs "```json".toList 0
        let start1 := if start0 = -1 then pyFindFrom cs "```".toList 0 else start0
        if start1 ≠ -1 then
          let start2 := (pyFindFrom cs "\n".toList start1.toNat + 1).toNat
          let endIdx := pyFindFrom cs "```".toList start2
          if endIdx ≠ -1 then
            let json_text :=
              String.mk (pyStrip ((cs.drop start2).take (endIdx.toNat - start2)))
            loads json_text
          else none
        else none
      else none
    match s2 with
    | some envelope => .inr envelope
    | none =>
      -- Strategy 3: brace counting
      match braceScan loads cs cs 0 0 (-1) with
      | some envelope => .inr envelope
      | none => .inl "Could not extract valid JSON envelope from response"

/-! ## llm.py : LLMClient.decide

The body of decide is wrapped in try/except: any exception raised by the
pipeline (normalisation or validation on a malformed parse result) is
caught and turned into an api_error envelope.  The Anthropic API call is
outside the repository; the function below is the pipeline applied to the
response text the API produced. -/

def LLMClient_decide (loads : String → Option Json) (response_text : String) :
    Json :=
  match parse_llm_response loads response_text with
  | .inl result =>
      create_error_envelope ("LLM response parse failed: " ++ result)
  | .inr result =>
      match normalize_envelope result with
      | .error e => create_error_envelope ("LLM API error: " ++ e) "api_error"
      | .ok envelope =>
          match validate_envelope envelope with
          | .error e => create_error_envelope ("LLM API error: " ++ e) "api_error"
          | .ok (valid, errors) =>
              if !valid then
                create_error_envelope
                  ("Envelope validation failed: " ++ String.intercalate "; " errors)
                  "validation_error"
              else envelope

/-! ## tags.py : data model and TagManager operations -/

structure TagMeta where
  name : String
  description : String := ""
  version : String := "1.0.0"
  created_at : String := ""
  updated_at : String := ""

structure TagConfig where
  assigned_users : List String := []
  assigned_roles : List String := []
  org_scope : String := ""
  allowed_tools : List String := []
  priority : Int := 0

structure TagPayload where
  meta : TagMeta
  config : TagConfig
  content : String

inductive TagKind where
  | company | function | role | flow | tool | guardrail

structure Tag where
  tag : String
  kind : TagKind
  payload : TagPayload

/-- The filter condition of TagManager.resolve_tags_for_user (tags.py
    lines 153-168): the three `continue` guards, negated. -/
def tagApplicable (user_id : String) (user_roles : List String)
    (org_id : String) (tag : Tag) : Bool :=
  let config := tag.payload.config
  if !config.assigned_users.isEmpty && !config.assigned_users.contains user_id
      && !config.assigned_users.contains "*" then false
  else if !config.assigned_roles.isEmpty
      && !(user_roles.any (fun role => config.assigned_roles.contains role)) then false
  else if config.org_scope ≠ "" && config.org_scope ≠ org_id then false
  else true

/-- Stable insertion step for priority-descending order: the element is
    placed after every element of strictly greater priority and before
    the first element of priority ≤ its own. -/
def insertByPriorityDesc (x : Tag) : List Tag → List Tag
  | [] => [x]
  | y :: ys =>
      if x.payload.config.priority < y.payload.config.priority then
        y :: insertByPriorityDesc x ys
      else x :: y :: ys

/-- Stable descending sort by priority: models the call
    applicable_tags.sort(key=lambda t: priority, reverse=True) at
    tags.py line 171 (Python list.sort is stable, and with reverse=True
    equal-priority elements keep their original relative order). -/
def sortByPriorityDesc : List Tag → List Tag
  | [] => []
  | x :: xs => insertByPriorityDesc x (sortByPriorityDesc xs)

/-- tags.py TagManager.resolve_tags_for_user (lines 132-173).  The
    manager's tag store dict is modelled by the list of its values in
    insertion order. -/
def resolve_tags_for_user (store : List Tag) (user_id : String)
    (user_roles : List String) (org_id : String := "") : List Tag :=
  sortByPriorityDesc (store.filter (tagApplicable user_id user_roles org_id))

/-- tags.py TagManager.get_allowed_tools (lines 228-244).  The Python
    function accumulates a set; the set is modelled by the concatenated
    list, which has the same membership and the same emptiness. -/
def get_allowed_tools (tags : List Tag) : List String :=
  (tags.map (fun t => t.payload.config.allowed_tools)).flatten

/-- tags.py TagManager.validate_tool_access (lines 284-296):
    `not allowed_tools or tool in allowed_tools`.  The tool value comes
    from envelope.get("tool") in agent.py and may be any JSON value;
    membership in a set of strings holds only for an equal string. -/
def validate_tool_access (tool : Json) (tags : List Tag) : Bool :=
  let allowed_tools := get_allowed_tools tags
  allowed_tools.isEmpty ||
    (match tool with | .str s => allowed_tools.contains s | _ => false)

/-! ## agent.py : Agent._execute_single_tool -/

/-- agent.py Agent._execute_single_tool (lines 209-236).
    `exec_single` is the ToolExecutor.execute_single call (tools.py;
    filesystem- and MCP-backed, outside this model).  The returned flag
    records whether the executor was invoked; history recording
    (_record_tool_result) and verbose printing only append to the log
    and do not affect the returned observation. -/
def Agent_execute_single_tool (enable_tags : Bool) (current_tags : List Tag)
    (exec_single : Json → Json → Json) (envelope : Json) : Bool × Json :=
  let tool := (envelope.lookup "tool").getD .null
  let arguments := (envelope.lookup "arguments").getD (.obj [])
  if enable_tags && !(validate_tool_access tool current_tags) then
    (false, .obj [("success", .bool false),
                  ("tool", tool),
                  ("error", .str ("Tool \x27" ++ tool.pystr
                      ++ "\x27 not allowed by current permissions")),
                  ("duration_ms", .num 0)])
  else
    (true, exec_single tool arguments)

/-! ## tools.py : ToolExecutor.execute_batch -/

/-- One request entry of execute_batch: the Python code reads exactly
    the keys "tool_id", "tool" and "arguments" from each dict. -/
structure ToolCallItem where
  tool_id : String
  tool : String
  arguments : Json

/-- The observation execute_single returns: always a dict carrying a
    "success" bool (tools.py lines 50-56 and 60-66); the aggregate only
    reads that flag, so the observation is abstracted to the flag plus
    the remaining payload. -/
structure Obs where
  success : Bool
  data : Json

/-- Python dict assignment for observation maps (same replace-or-append
    semantics as Json.setKey). -/
def obsSet (results : List (String × Obs)) (k : String) (v : Obs) :
    List (String × Obs) :=
  match results with
  | [] => [(k, v)]
  | (k', v') :: rest =>
      if k' = k then (k', v) :: rest else (k', v') :: obsSet rest k v

/-- The aggregate execute_batch returns (`_multi_tool` is always true). -/
structure BatchResult where
  multi_tool : Bool
  count : Nat
  all_success : Bool
  results : List (String × Obs)

/-- tools.py ToolExecutor.execute_batch (lines 68-117).  The parallel
    branch fills the same tool_id-keyed dict in completion order, which
    the aggregate does not expose (count, all_success and membership are
    insensitive to it); the request order used here is the sequential
    branch's order. -/
def execute_batch (exec_single : String → Json → Obs)
    (tools : List ToolCallItem) : BatchResult :=
  let results := tools.foldl
    (fun acc tool_item =>
      obsSet acc tool_item.tool_id (exec_single tool_item.tool tool_item.arguments))
    []
  { multi_tool := true,
    count := results.length,
    all_success := results.all (fun r => r.2.success),
    results := results }

/-! ## agent.py : Agent.run and Agent._check_budgets

Budgets are Python ints; they are modelled as Int.  AgentConfig keeps
the fields the loop reads (model/temperature/prompt/verbose settings do
not affect the counters or control flow modelled here).  config.py's
__post_init__ requires max_cycles ≥ 1; max_total_tokens is not
validated (default 100000).  The wall-clock comparison of the time
budget and the LLM decision are environment effects, passed in as
oracles: `time_exceeded` is the outcome of the elapsed-time check at a
given cycle count, `llm` is the envelope decide_with_retry returns at a
given cycle count.  tokens_used is initialised to 0 and never written
by any code path of agent.py. -/

structure AgentConfig where
  max_cycles : Int
  max_total_tokens : Int
  max_time_seconds_truthy : Bool
  enable_tags : Bool
  auto_approve : Bool
  enable_multi_tool : Bool

/-- agent.py Agent._check_budgets (lines 285-304). -/
def check_budgets (cfg : AgentConfig) (time_exceeded : Int → Bool)
    (cycles_used tokens_used : Int) : Bool :=
  if cycles_used ≥ cfg.max_cycles then false
  else if tokens_used ≥ cfg.max_total_tokens then false
  else if cfg.max_time_seconds_truthy && time_exceeded cycles_used then false
  else true

/-- Python `x.get(k, dflt)`: raises AttributeError when the receiver is
    not a dict. -/
def pyGet (j : Json) (k : String) (dflt : Json) : Except String Json :=
  match j with
  | .obj f => .ok ((Json.lookupF f k).getD dflt)
  | _ => .error "AttributeError: get"

/-- The state dispatch of one cycle of Agent.run (agent.py lines
    102-183): returns (final_envelope, last_observation) as left by the
    branch taken.  `single_obs` and `multi_obs` are the observations
    produced by _execute_single_tool and _execute_multi_tool for the
    given envelope (tool execution is an environment effect). -/
def Agent_dispatch (cfg : AgentConfig) (single_obs multi_obs : Json → Json)
    (envelope : Json) (state : Json) : Option Json × Option Json :=
  if state.isStrEq "tool" then (none, some (single_obs envelope))
  else if state.isStrEq "tools" then (none, some (multi_obs envelope))
  else if state.isStrEq "reply" then (some envelope, none)
  else if state.isStrEq "plan" then (none, none)
  else if state.isStrEq "error" then (some envelope, none)
  else if state.isStrEq "clarify" then
    if cfg.auto_approve then
      (some (create_error_envelope
        "Agent requested clarification but auto_approve=True" "need_input"), none)
    else (some envelope, none)
  else if state.isStrEq "confirm" then
    if cfg.auto_approve then
      (none, some (.obj [("success", .bool true),
                         ("tool", .str "user_confirmation"),
                         ("result", .obj [("approved", .bool true)]),
                         ("duration_ms", .num 0)]))
    else (some envelope, none)
  else if state.isStrEq "reflect" then (none, none)
  else (some (create_error_envelope ("Unknown state: " ++ state.pystr)
          "invalid_state"), none)

/-- The while-loop of Agent.run (agent.py lines 73-193), returning
    (cycles_used, tokens_used, final_envelope).  Whenever a branch sets
    final_envelope the loop breaks in the same iteration (the
    `not should_continue or final_envelope` test), so final_envelope is
    None at the top of every iteration and is threaded per iteration.
    The recursion terminates because an iteration only continues after
    the budget check saw cycles_used < max_cycles and then incremented
    cycles_used.  In `last_observation`, `none` is Python None. -/
def Agent_run_loop (cfg : AgentConfig) (llm : Int → Json)
    (time_exceeded : Int → Bool) (single_obs multi_obs : Json → Json)
    (cycles_used tokens_used : Int) (last_observation : Option Json) :
    Except String (Int × Int × Json) :=
  if h : ¬ check_budgets cfg time_exceeded cycles_used tokens_used then
    .ok (cycles_used, tokens_used,
         create_error_envelope "Budget exhausted" "budget_exhausted")
  else
    -- prompt building reads last_observation and the budgets but does
    -- not change the state modelled here
    let envelope := llm cycles_used
    let cycles' := cycles_used + 1
    match pyGet envelope "state" .null with
    | .error e => .error e
    | .ok state =>
        let (final_envelope, last_observation') :=
          Agent_dispatch cfg single_obs multi_obs envelope state
        match pyGet envelope "meta" (.obj []) with
        | .error e => .error e
        | .ok meta =>
            match pyGet meta "continue" (.bool false) with
            | .error e => .error e
            | .ok should_continue =>
                if !should_continue.truthy || final_envelope.isSome then
                  .ok (cycles', tokens_used, final_envelope.getD envelope)
                else
                  Agent_run_loop cfg llm time_exceeded single_obs multi_obs
                    cycles' tokens_used last_observation'
  termination_by (cfg.max_cycles - cycles_used).toNat
  decreasing_by
    simp only [check_budgets, not_forall] at h
    split at h
    · simp at h
    · omega

/-- Result dict of Agent.run (agent.py lines 198-207); duration and
    history omitted (wall-clock / log only). -/
structure RunResult where
  success : Bool
  final_envelope : Json
  cycles : Int
  tokens : Int

/-- agent.py Agent.run: counters start at zero, the loop runs, and the
    result reports the final envelope and the stats. -/
def Agent_run (cfg : AgentConfig) (llm : Int → Json)
    (time_exceeded : Int → Bool) (single_obs multi_obs : Json → Json) :
    Except String RunResult :=
  match Agent_run_loop cfg llm time_exceeded single_obs multi_obs 0 0 none with
  | .error e => .error e
  | .ok (cycles, tokens, final_envelope) =>
      match pyGet final_envelope "state" .null with
      | .error e => .error e
      | .ok st =>
          .ok { success := !(st.isStrEq "error" || st.isStrEq "clarify"
                             || st.isStrEq "confirm"),
                final_envelope := final_envelope,
                cycles := cycles,
                tokens := tokens }

/-! ## orchestrator/tools_stub.py : execute_envelope_tool

The module-level transport flags (USE_MCP_STDIO, USE_MCP_SSE,
USE_DIRECT_MCP, read from the environment at import) are the Flags
record; the server registry loaded by _load_servers_map is the
label-to-url association list `servers`.  The dispatcher's effect is
reified as a Dispatch value: which underlying client call it performs
(call_tool on the stdio/sse/direct client, or mcp_search/mcp_fetch),
or which plain dict it returns, or which exception it raises. -/

/-- The DANGEROUS set of tools_stub.py line 227. -/
def DANGEROUS_TOOLS : List String :=
  ["execute_powershell", "powershell", "shell", "bash", "python",
   "python_eval", "delete_item", "write_block", "change_directory"]

structure Flags where
  use_mcp_stdio : Bool
  use_mcp_sse : Bool
  use_direct_mcp : Bool

inductive Dispatch where
  | searchCall (args : Json)
  | fetchCall (args : Json)
  | callStdio (name : Json) (args : Json)
  | callSse (name : Json) (args : Json) (server_url : Json)
  | callDirect (name : Json) (args : Json)
  | value (v : Json)
  | raise (msg : String)

/-- Python `a or dflt` over an optional dict entry (used for
    `arguments.get(k) or x`). -/
def pyOrDefault (a : Option Json) (dflt : Json) : Json :=
  match a with
  | some v => if v.truthy then v else dflt
  | none => dflt

/-- `arguments.get("tool_name") or arguments.get("name")`
    (tools_stub.py line 215). -/
def mcpToolName (af : List (String × Json)) : Json :=
  pyOrDefault (Json.lookupF af "tool_name") ((Json.lookupF af "name").getD .null)

/-- `arguments.get("arguments") or ` empty dict (tools_stub.py
    lines 216 and 223). -/
def mcpToolArgs (af : List (String × Json)) : Json :=
  pyOrDefault (Json.lookupF af "arguments") (.obj [])

/-- Lookup in the label-to-url server registry. -/
def serverLookup (servers : List (String × String)) (lbl : String) :
    Option String :=
  match servers with
  | [] => none
  | (l, u) :: rest => if l = lbl then some u else serverLookup rest lbl

theorem Json.sizeOf_lookupF : ∀ (fields : List (String × Json)) (k : String)
    (v : Json), Json.lookupF fields k = some v → sizeOf v < sizeOf (Json.obj fields) := by
  intro fields k v h
  induction fields with
  | nil => simp [Json.lookupF] at h
  | cons p rest ih =>
      obtain ⟨k', v'⟩ := p
      simp only [Json.lookupF] at h
      split at h
      · cases h
        simp only [Json.obj.sizeOf_spec, List.cons.sizeOf_spec, Prod.mk.sizeOf_spec]
        omega
      · have hr := ih h
        simp only [Json.obj.sizeOf_spec, List.cons.sizeOf_spec,
          Prod.mk.sizeOf_spec] at hr ⊢
        omega

theorem mcpToolArgs_sizeOf (af : List (String × Json)) (h : af ≠ []) :
    sizeOf (mcpToolArgs af) < sizeOf (Json.obj af) := by
  unfold mcpToolArgs pyOrDefault
  have hempty : sizeOf (Json.obj ([] : List (String × Json))) = 2 := by
    simp
  cases haf : Json.lookupF af "arguments" with
  | none =>
      simp only
      match af, h with
      | p :: rest, _ =>
        obtain ⟨k', v'⟩ := p
        simp only [Json.obj.sizeOf_spec, List.cons.sizeOf_spec,
          Prod.mk.sizeOf_spec, List.nil.sizeOf_spec]
        have : 1 ≤ sizeOf v' := by cases v' <;> simp <;> omega
        omega
  | some v =>
      have hv := Json.sizeOf_lookupF af "arguments" v haf
      simp only
      split
      · exact hv
      · match af, h with
        | p :: rest, _ =>
          obtain ⟨k', v'⟩ := p
          simp only [Json.obj.sizeOf_spec, List.cons.sizeOf_spec,
            Prod.mk.sizeOf_spec, List.nil.sizeOf_spec]
          have : 1 ≤ sizeOf v' := by cases v' <;> simp <;> omega
          omega

theorem mcpToolName_truthy_ne_nil (af : List (String × Json))
    (h : (mcpToolName af).truthy = true) : af ≠ [] := by
  intro hnil
  subst hnil
  simp [mcpToolName, pyOrDefault, Json.lookupF, Json.truthy] at h

/-- DIRECT-mode mcp_call handling (tools_stub.py lines 213-219): unwrap
    the inner tool name and arguments; `.inr` is the re-entry into
    execute_envelope_tool at line 219. -/
def mcpCallDirect (af : List (String × Json)) : Dispatch ⊕ (String × Json) :=
  if ¬ (mcpToolName af).truthy then
    .inl (.value (.obj [("error",
      .str "Missing \x27tool_name\x27 or \x27name\x27 for mcp_call")]))
  else
    match mcpToolName af with
    | .str s => .inr (s, mcpToolArgs af)
    | _ =>
        -- the recursive Python call immediately evaluates the test of
        -- "workflow" in tool, raising on a non-string name
        .inl (.raise "TypeError: argument of type is not iterable")

/-- STDIO/SSE mcp_call handling (tools_stub.py lines 220-248): missing
    name check, high-risk gating, server selection, then the client
    call. -/
def mcpCallTransport (fl : Flags) (servers : List (String × String))
    (af : List (String × Json)) : Dispatch :=
  if !(fl.use_mcp_stdio || fl.use_mcp_sse) then
    .value (.obj [("error",
      .str "mcp_call requires USE_MCP_STDIO=1 or USE_MCP_SSE=1")])
  else
    let name := (Json.lookupF af "name").getD .null
    let params := mcpToolArgs af
    if !name.truthy then
      .value (.obj [("error", .str "Missing \x27name\x27 for mcp_call")])
    else
      -- line 228: name in DANGEROUS and not params.get("approved")
      let gate_hit : Option Dispatch :=
        if (match name with
            | .str s => decide (s ∈ DANGEROUS_TOOLS)
            | _ => false) then
          match params with
          | .obj pf =>
              if !((Json.lookupF pf "approved").getD .null).truthy then
                some (.value (.obj [("approval_required", .bool true),
                  ("reason", .str ("High-risk MCP tool \x27"
                    ++ name.pystr ++ "\x27 requires human approval"))]))
              else none
          | _ => some (.raise "AttributeError: get")
        else none
      match gate_hit with
      | some d => d
      | none =>
        -- lines 230-248: server selection, then the call
        let proceed : Json → Dispatch := fun server_url =>
          if fl.use_mcp_stdio then .callStdio name params
          else .callSse name params server_url
        let server_url0 := (Json.lookupF af "server_url").getD .null
        let server_label := (Json.lookupF af "server_label").getD .null
        if server_url0.truthy then proceed server_url0
        else if server_label.truthy then
          match server_label with
          | .str lbl =>
              (match serverLookup servers lbl with
               | some url =>
                   if url ≠ "" then proceed (.str url)
                   else .value (.obj [("error",
                     .str ("Unknown server_label \x27" ++ lbl ++ "\x27"))])
               | none => .value (.obj [("error",
                   .str ("Unknown server_label \x27" ++ lbl ++ "\x27"))]))
          | .arr _ => .raise "TypeError: unhashable type"
          | .obj _ => .raise "TypeError: unhashable type"
          | other => .value (.obj [("error",
              .str ("Unknown server_label \x27" ++ other.pystr ++ "\x27"))])
        else if servers.length > 1 then
          .value (.obj [("error", .str
            "Multiple MCP servers configured; provide \x27server_label\x27 in arguments")])
        else
          match servers with
          | (_, url) :: _ => proceed (.str url)
          | [] => proceed .null

/-- One pass of tools_stub.py execute_envelope_tool (lines 184-250).
    The function is recursive only at line 219 (DIRECT-mode mcp_call
    unwraps the inner tool and re-enters itself); this step function
    returns `.inr (inner_tool, inner_args)` exactly there and
    `.inl dispatch` for every other return, and execute_envelope_tool
    below closes the recursion. -/
def dispatchStep (fl : Flags) (servers : List (String × String))
    (tool : String) (arguments : Json) : Dispatch ⊕ (String × Json) :=
  if tool = "mcp_search" then .inl (.searchCall arguments)
  else if tool = "mcp_fetch" then .inl (.fetchCall arguments)
  else
    -- lines 192-198: workflow block; falls through when no arm returns
    let workflow_hit : Option Dispatch :=
      if pyContains "workflow".toList tool.toList then
        if !(fl.use_mcp_stdio || fl.use_mcp_sse || fl.use_direct_mcp) then
          some (.value (.obj [("error", .str "workflow tools require transport")]))
        else if fl.use_direct_mcp then
          some (.callDirect (.str tool) arguments)
        else none
      else none
    match workflow_hit with
    | some d => .inl d
    | none =>
      -- lines 200-210: generic branch; mcp_search/mcp_fetch returned
      -- above, so the set-membership test reduces to tool ≠ "mcp_call"
      let generic_hit : Option Dispatch :=
        if tool ≠ "mcp_call" then
          if fl.use_mcp_stdio then some (.callStdio (.str tool) arguments)
          else if fl.use_mcp_sse then
            some (.callSse (.str tool) arguments
              (match servers with | [] => .null | (_, url) :: _ => .str url))
          else if fl.use_direct_mcp then some (.callDirect (.str tool) arguments)
          else none
        else none
      match generic_hit with
      | some d => .inl d
      | none =>
        if tool = "mcp_call" then
          match arguments with
          | .obj af =>
              if fl.use_direct_mcp then mcpCallDirect af
              else .inl (mcpCallTransport fl servers af)
          | _ => .inl (.raise "AttributeError: get")
        else
          -- line 250: unknown tool, echo back
          .inl (.value (.obj [("error", .str ("unknown tool: " ++ tool)),
                        ("args", arguments)]))

theorem mcpCallDirect_inr_sizeOf (af : List (String × Json)) (s : String)
    (inner : Json) (h : mcpCallDirect af = .inr (s, inner)) :
    sizeOf inner < sizeOf (Json.obj af) := by
  unfold mcpCallDirect at h
  split at h
  · cases h
  · rename_i hname
    split at h
    · cases h
      exact mcpToolArgs_sizeOf af
        (mcpToolName_truthy_ne_nil af (by
          revert hname
          cases (mcpToolName af).truthy <;> simp))
    · cases h

/-- The step function recurses only with a strictly smaller arguments
    value (the inner arguments dict is a subterm, or the fresh empty
    dict when absent or falsy, and the outer dict is then nonempty). -/
theorem dispatchStep_inr_sizeOf (fl : Flags) (servers : List (String × String))
    (tool : String) (arguments : Json) (s : String) (inner : Json)
    (h : dispatchStep fl servers tool arguments = .inr (s, inner)) :
    sizeOf inner < sizeOf arguments := by
  unfold dispatchStep at h
  split at h
  · cases h
  · split at h
    · cases h
    · simp only at h
      split at h
      · cases h
      · split at h
        · cases h
        · split at h
          · split at h
            · split at h
              · exact mcpCallDirect_inr_sizeOf _ s inner h
              · cases h
            · cases h
          · cases h
  <;> cases h

/-- tools_stub.py execute_envelope_tool (lines 184-250): iterate the
    step function; line 219 is the only self-call. -/
def execute_envelope_tool (fl : Flags) (servers : List (String × String))
    (tool : String) (arguments : Json) : Dispatch :=
  match hstep : dispatchStep fl servers tool arguments with
  | .inl d => d
  | .inr (s, inner) => execute_envelope_tool fl servers s inner
  termination_by sizeOf arguments
  decreasing_by
    exact dispatchStep_inr_sizeOf fl servers tool arguments s inner hstep

/-- Plain unfolding equation for execute_envelope_tool. -/
theorem execute_envelope_tool_eq (fl : Flags) (servers : List (String × String))
    (tool : String) (arguments : Json) :
    execute_envelope_tool fl servers tool arguments =
      match dispatchStep fl servers tool arguments with
      | .inl d => d
      | .inr (s, inner) => execute_envelope_tool fl servers s inner := by
  rw [execute_envelope_tool]
  split
  · rename_i d hd
    rw [hd]
  · rename_i s inner hd
    rw [hd]

/-! ## Association-list lemmas for the dict model -/

theorem Json.lookupF_append (f g : List (String × Json)) (k : String) :
    Json.lookupF (f ++ g) k =
      match Json.lookupF f k with
      | some v => some v
      | none => Json.lookupF g k := by
  induction f with
  | nil => simp [Json.lookupF]
  | cons p rest ih =>
      obtain ⟨k', v'⟩ := p
      simp only [List.cons_append, Json.lookupF]
      split <;> simp [ih]

theorem Json.lookupF_setKey_self (f : List (String × Json)) (k : String)
    (v : Json) : Json.lookupF (Json.setKey f k v) k = some v := by
  induction f with
  | nil => simp [Json.setKey, Json.lookupF]
  | cons p rest ih =>
      obtain ⟨k', v'⟩ := p
      simp only [Json.setKey]
      split
      · rename_i h
        simp [Json.lookupF, h]
      · simp only [Json.lookupF]
        split
        · rename_i h h2
          exact absurd h2 h
        · exact ih

theorem Json.lookupF_setKey_ne (f : List (String × Json)) (k k' : String)
    (v : Json) (h : k' ≠ k) :
    Json.lookupF (Json.setKey f k v) k' = Json.lookupF f k' := by
  induction f with
  | nil =>
      simp only [Json.setKey, Json.lookupF]
      rw [if_neg (fun hh => h hh.symm)]
  | cons p rest ih =>
      obtain ⟨k0, v0⟩ := p
      simp only [Json.setKey]
      split
      · rename_i hk
        subst hk
        simp only [Json.lookupF]
        split
        · rename_i h2
          exact absurd h2.symm h
        · rfl
      · simp only [Json.lookupF]
        split
        · rfl
        · exact ih

theorem Json.setKey_lookup_same (f : List (String × Json)) (k : String)
    (v : Json) (h : Json.lookupF f k = some v) : Json.setKey f k v = f := by
  induction f with
  | nil => simp [Json.lookupF] at h
  | cons p rest ih =>
      obtain ⟨k0, v0⟩ := p
      simp only [Json.lookupF] at h
      simp only [Json.setKey]
      split
      · rename_i hk
        rw [if_pos hk] at h
        cases h
        rfl
      · rename_i hk
        rw [if_neg hk] at h
        rw [ih h]

/-! ## Predicates used in theorem statements -/

/-- A meta dict that passes every meta check of validate_envelope
    (continue present and bool, stop_reason valid when continue=false,
    confidence in range when present). -/
def metaWellFormed (m : List (String × Json)) : Bool :=
  (metaErrs m).isEmpty && (stopErrs m).isEmpty && (confErrs m).isEmpty

/-- The inputs on which validate_envelope cannot raise: whenever the
    envelope is a dict containing "state" and "meta", its meta value is
    a dict, its clarify value (when state is "clarify" and clarify is
    present) is iterable (dict, str or list), and its brief_rationale
    value (when present) supports len() (str, list or dict). -/
def validateTotalCond (e : Json) : Bool :=
  match e with
  | .obj f =>
      if Json.hasKeyF f "state" && Json.hasKeyF f "meta" then
        (match Json.lookupF f "meta" with
         | some (.obj _) => true
         | _ => false) &&
        ((if ((Json.lookupF f "state").getD .null).isStrEq "clarify" then
           match Json.lookupF f "clarify" with
           | none => true
           | some (.obj _) => true
           | some (.str _) => true
           | some (.arr _) => true
           | some _ => false
         else true) &&
        (match Json.lookupF f "brief_rationale" with
         | none => true
         | some (.str _) => true
         | some (.arr _) => true
         | some (.obj _) => true
         | some _ => false))
      else true
  | _ => true

/-- A tools-array element that normalize_envelope leaves unchanged:
    non-dicts, and dicts whose tool_id is present and truthy. -/
def toolItemNormalized (item : Json) : Bool :=
  match item with
  | .obj f =>
      match Json.lookupF f "tool_id" with
      | some v => v.truthy
      | none => false
  | _ => true

/-! ## Lemmas and claim theorems for the envelope validator -/

theorem Json.hasKeyF_false_iff (f : List (String × Json)) (k : String) :
    Json.hasKeyF f k = false ↔ Json.lookupF f k = none := by
  cases h : Json.lookupF f k <;> simp [Json.hasKeyF, h]

theorem Json.hasKeyF_true_iff (f : List (String × Json)) (k : String) :
    Json.hasKeyF f k = true ↔ ∃ v, Json.lookupF f k = some v := by
  cases h : Json.lookupF f k <;> simp [Json.hasKeyF, h]

/-- C7 counterexample: the claim says validate_envelope rejects a
    state=tools envelope whose tools list is empty; on this concrete,
    otherwise well-formed envelope it returns valid=true with no
    errors. -/
theorem validate_accepts_empty_tools_cex :
    validate_envelope (.obj [("state", .str "tools"), ("tools", .arr []),
      ("meta", .obj [("continue", .bool true)])]) = .ok (true, []) := rfl

/-- C7 amended: for every envelope with state="tools", tools equal to
    the empty list and a meta dict passing every meta check,
    validate_envelope accepts it (the loop over tools validates each
    element, so an empty array contributes no errors). -/
theorem validate_accepts_empty_tools (m : List (String × Json))
    (hm : metaWellFormed m = true) :
    validate_envelope (.obj [("state", .str "tools"), ("tools", .arr []),
      ("meta", .obj m)]) = .ok (true, []) := by
  unfold metaWellFormed at hm
  simp only [Bool.and_eq_true, List.isEmpty_iff] at hm
  obtain ⟨⟨h1, h2⟩, h3⟩ := hm
  simp [validate_envelope, validate_errors, coreErrors, briefErrors,
    Json.hasKeyF, Json.lookup, Json.lookupF, h1, h2, h3,
    stateErrs, specErrs, Json.isStrEq, SCHEMA_STATES]

/-- C7 amended, witness. -/
theorem validate_accepts_empty_tools_witness :
    metaWellFormed [("continue", .bool true)] = true ∧
    validate_envelope (.obj [("state", .str "tools"), ("tools", .arr []),
      ("meta", .obj [("continue", .bool true)])]) = .ok (true, []) :=
  ⟨by decide, validate_accepts_empty_tools [("continue", .bool true)] (by decide)⟩

/-- C10 counterexample: the claim says validate_envelope is total on
    arbitrary JSON; on an envelope whose meta is the number 3 it reaches
    the call of meta.get("continue") at envelope.py line 60 and raises
    AttributeError instead of returning a pair. -/
theorem validate_raises_on_nondict_meta_cex :
    validate_envelope (.obj [("state", .str "reply"), ("meta", .num 3)]) =
      .error "AttributeError: meta has no attribute get" := rfl

/-- C10 amended: validate_envelope returns a (valid, errors) pair on
    every input satisfying validateTotalCond: whenever the envelope is a
    dict with both "state" and "meta", the meta value is a dict, the
    clarify value (when state is "clarify" and clarify is present) is
    iterable, and the brief_rationale value (when present) supports
    len(); outside that set it raises (AttributeError at line 60 on
    non-dict meta, TypeError at line 106 on a non-iterable clarify
    value, TypeError at line 125 on len of None/bool/number). -/
theorem validate_total_on_cond (e : Json) (h : validateTotalCond e = true) :
    ∃ p, validate_envelope e = .ok p := by
  suffices hl : ∃ l, validate_errors e = .ok l by
    obtain ⟨l, hl⟩ := hl
    exact ⟨(l.isEmpty, l), by simp [validate_envelope, hl]⟩
  match e with
  | .null => exact ⟨_, rfl⟩
  | .bool _ => exact ⟨_, rfl⟩
  | .num _ => exact ⟨_, rfl⟩
  | .str _ => exact ⟨_, rfl⟩
  | .arr _ => exact ⟨_, rfl⟩
  | .obj f =>
    simp only [validateTotalCond] at h
    by_cases hsk : Json.hasKeyF f "state" = true
    · by_cases hmk : Json.hasKeyF f "meta" = true
      · rw [hsk, hmk] at h
        simp only [Bool.and_self, if_true, Bool.and_eq_true] at h
        obtain ⟨hmeta, hclar, hbrief⟩ := h
        obtain ⟨mv, hmv⟩ := (Json.hasKeyF_true_iff f "meta").mp hmk
        rw [hmv] at hmeta
        match mv, hmeta with
        | .obj m, _ =>
          have hspec : ∀ st : Json,
              (st.isStrEq "clarify" = true →
                (match Json.lookupF f "clarify" with
                 | none => true
                 | some (.obj _) => true
                 | some (.str _) => true
                 | some (.arr _) => true
                 | some _ => false) = true) →
              ∃ sp, specErrs (.obj f) st = .ok sp := by
            intro st hc
            unfold specErrs
            split_ifs
            all_goals try exact ⟨_, rfl⟩
            all_goals
              (have hclar2 := hc (by assumption)
               simp only [Json.lookup]
               cases hcv : Json.lookupF f "clarify" with
               | none => exact ⟨_, rfl⟩
               | some v =>
                   rw [hcv] at hclar2
                   match v, hclar2 with
                   | .obj cf, _ =>
                       cases hq : Json.hasKeyF cf "question" with
                       | true => exact ⟨[], by simp only [pyIn]; rw [hq]⟩
                       | false => exact ⟨["clarify.question is required"],
                           by simp only [pyIn]; rw [hq]⟩
                   | .str s, _ =>
                       cases hq : pyContains "question".toList s.toList with
                       | true => exact ⟨[], by simp only [pyIn]; rw [hq]⟩
                       | false => exact ⟨["clarify.question is required"],
                           by simp only [pyIn]; rw [hq]⟩
                   | .arr l, _ =>
                       cases hq : l.any (fun j => j.isStrEq "question") with
                       | true => exact ⟨[], by simp only [pyIn]; rw [hq]⟩
                       | false => exact ⟨["clarify.question is required"],
                           by simp only [pyIn]; rw [hq]⟩)
          obtain ⟨sp, hsp⟩ := hspec ((Json.lookupF f "state").getD .null)
            (fun hs => by rw [if_pos hs] at hclar; exact hclar)
          have hcore : coreErrors (.obj f) =
              .ok (stateErrs ((Json.lookupF f "state").getD .null) ++ metaErrs m ++
                   stopErrs m ++ sp ++ confErrs m) := by
            simp [coreErrors, Json.lookup, hmv, hsp]
          have hbr : ∃ b, briefErrors (.obj f) = .ok b := by
            cases hbv : Json.lookupF f "brief_rationale" with
            | none => exact ⟨[], by simp [briefErrors, Json.lookup, hbv]⟩
            | some v =>
                rw [hbv] at hbrief
                match v, hbrief with
                | .str s, _ =>
                    exact ⟨if s.length > 220 then
                        ["brief_rationale must be <= 220 characters"] else [],
                      by simp [briefErrors, Json.lookup, hbv, Json.pyLen]⟩
                | .arr l, _ =>
                    exact ⟨if l.length > 220 then
                        ["brief_rationale must be <= 220 characters"] else [],
                      by simp [briefErrors, Json.lookup, hbv, Json.pyLen]⟩
                | .obj g, _ =>
                    exact ⟨if g.length > 220 then
                        ["brief_rationale must be <= 220 characters"] else [],
                      by simp [briefErrors, Json.lookup, hbv, Json.pyLen]⟩
          obtain ⟨b, hbr⟩ := hbr
          refine ⟨(stateErrs ((Json.lookupF f "state").getD .null) ++ metaErrs m ++
                   stopErrs m ++ sp ++ confErrs m) ++ b, ?_⟩
          simp only [validate_errors, hsk, hmk]
          simp [hcore, hbr]
      · have hmk' : Json.hasKeyF f "meta" = false := by
          simpa using hmk
        exact ⟨(if Json.hasKeyF f "state" = true then [] else
            ["Missing required field: state"]) ++ ["Missing required field: meta"],
          by simp [validate_errors, hmk', hsk]⟩
    · have hsk' : Json.hasKeyF f "state" = false := by
        simpa using hsk
      exact ⟨"Missing required field: state" ::
          (if Json.hasKeyF f "meta" = true then [] else ["Missing required field: meta"]),
        by simp [validate_errors, hsk']⟩

/-- C10 amended, witness. -/
theorem validate_total_on_cond_witness :
    validateTotalCond (.obj [("state", .str "reply"), ("meta", .obj []),
      ("brief_rationale", .str "hi")]) = true ∧
    ∃ p, validate_envelope (.obj [("state", .str "reply"), ("meta", .obj []),
      ("brief_rationale", .str "hi")]) = .ok p :=
  ⟨by decide, validate_total_on_cond _ (by decide)⟩

theorem Json.lookupF_append_brief (f : List (String × Json)) (v : Json)
    (k : String) (hk : k ≠ "brief_rationale") :
    Json.lookupF (f ++ [("brief_rationale", v)]) k = Json.lookupF f k := by
  rw [Json.lookupF_append]
  cases h : Json.lookupF f k with
  | some w => rfl
  | none =>
      simp only [Json.lookupF]
      rw [if_neg (fun hh => hk hh.symm)]

theorem Json.lookupF_append_brief_self (f : List (String × Json)) (v : Json)
    (hf : Json.lookupF f "brief_rationale" = none) :
    Json.lookupF (f ++ [("brief_rationale", v)]) "brief_rationale" = some v := by
  rw [Json.lookupF_append, hf]
  simp [Json.lookupF]

theorem specErrs_append_brief (f : List (String × Json)) (v : Json) (st : Json) :
    specErrs (.obj (f ++ [("brief_rationale", v)])) st = specErrs (.obj f) st := by
  simp only [specErrs, Json.hasKey, Json.lookup,
    Json.lookupF_append_brief f v "tool" (by decide),
    Json.lookupF_append_brief f v "arguments" (by decide),
    Json.lookupF_append_brief f v "tools" (by decide),
    Json.lookupF_append_brief f v "conversation" (by decide),
    Json.lookupF_append_brief f v "error" (by decide),
    Json.lookupF_append_brief f v "clarify" (by decide),
    Json.lookupF_append_brief f v "confirm" (by decide),
    Json.lookupF_append_brief f v "plan" (by decide)]

theorem coreErrors_append_brief (f : List (String × Json)) (v : Json) :
    coreErrors (.obj (f ++ [("brief_rationale", v)])) = coreErrors (.obj f) := by
  simp only [coreErrors, Json.lookup,
    Json.lookupF_append_brief f v "state" (by decide),
    Json.lookupF_append_brief f v "meta" (by decide),
    specErrs_append_brief]

/-- C8: on every envelope that validates and carries no brief_rationale,
    adding a brief_rationale of exactly 220 characters keeps it valid,
    and one of 221 characters is rejected with exactly the length
    error. -/
theorem validate_brief_rationale_boundary (f : List (String × Json))
    (s t : String)
    (hnb : Json.hasKeyF f "brief_rationale" = false)
    (hv : validate_envelope (.obj f) = .ok (true, []))
    (hs : s.length = 220) (ht : t.length = 221) :
    validate_envelope (.obj (f ++ [("brief_rationale", .str s)])) = .ok (true, []) ∧
    validate_envelope (.obj (f ++ [("brief_rationale", .str t)])) =
      .ok (false, ["brief_rationale must be <= 220 characters"]) := by
  rw [Json.hasKeyF_false_iff] at hnb
  have hve : validate_errors (.obj f) = .ok [] := by
    unfold validate_envelope at hv
    cases h : validate_errors (.obj f) with
    | error e => rw [h] at hv; cases hv
    | ok l =>
        rw [h] at hv
        simp only [Except.ok.injEq, Prod.mk.injEq] at hv
        rw [hv.2]
  have hsk : Json.hasKeyF f "state" = true := by
    by_contra hc
    simp only [Bool.not_eq_true] at hc
    simp [validate_errors, hc] at hve
  have hmk : Json.hasKeyF f "meta" = true := by
    by_contra hc
    simp only [Bool.not_eq_true] at hc
    simp [validate_errors, hc] at hve
  have hbf : briefErrors (.obj f) = .ok [] := by
    simp [briefErrors, Json.lookup, hnb]
  have hcore : coreErrors (.obj f) = .ok [] := by
    simp only [validate_errors, hsk, hmk] at hve
    simp only [if_true] at hve
    cases hc : coreErrors (.obj f) with
    | error e => simp [hc] at hve
    | ok c =>
        rw [hc, hbf] at hve
        simp only [List.append_nil] at hve
        simp_all
  have key : ∀ (x : String),
      validate_envelope (.obj (f ++ [("brief_rationale", .str x)])) =
        .ok ((if x.length > 220 then
                ["brief_rationale must be <= 220 characters"] else []).isEmpty,
             if x.length > 220 then
                ["brief_rationale must be <= 220 characters"] else []) := by
    intro x
    have h1 : Json.hasKeyF (f ++ [("brief_rationale", Json.str x)]) "state" = true := by
      simp only [Json.hasKeyF, Json.lookupF_append_brief f _ "state" (by decide)]
      simpa [Json.hasKeyF] using hsk
    have h2 : Json.hasKeyF (f ++ [("brief_rationale", Json.str x)]) "meta" = true := by
      simp only [Json.hasKeyF, Json.lookupF_append_brief f _ "meta" (by decide)]
      simpa [Json.hasKeyF] using hmk
    have h3 : briefErrors (.obj (f ++ [("brief_rationale", .str x)])) =
        .ok (if x.length > 220 then
              ["brief_rationale must be <= 220 characters"] else []) := by
      simp [briefErrors, Json.lookup, Json.lookupF_append_brief_self f _ hnb, Json.pyLen]
    have h4 : coreErrors (.obj (f ++ [("brief_rationale", .str x)])) = .ok [] := by
      rw [coreErrors_append_brief]; exact hcore
    simp only [validate_envelope, validate_errors, h1, h2, if_true]
    simp [h4, h3]
  constructor
  · rw [key s, hs]
    simp
  · rw [key t, ht]
    simp

set_option maxRecDepth 4000 in
/-- C8, witness. -/
theorem validate_brief_rationale_boundary_witness :
    (Json.hasKeyF [("state", Json.str "confirm"), ("confirm", Json.obj []),
        ("meta", Json.obj [("continue", Json.bool true)])] "brief_rationale" = false ∧
     validate_envelope (.obj [("state", Json.str "confirm"), ("confirm", Json.obj []),
        ("meta", Json.obj [("continue", Json.bool true)])]) = .ok (true, []) ∧
     (String.mk (List.replicate 220 'a')).length = 220 ∧
     (String.mk (List.replicate 221 'a')).length = 221) ∧
    (validate_envelope (.obj ([("state", Json.str "confirm"), ("confirm", Json.obj []),
        ("meta", Json.obj [("continue", Json.bool true)])] ++
        [("brief_rationale", .str (String.mk (List.replicate 220 'a')))])) = .ok (true, []) ∧
     validate_envelope (.obj ([("state", Json.str "confirm"), ("confirm", Json.obj []),
        ("meta", Json.obj [("continue", Json.bool true)])] ++
        [("brief_rationale", .str (String.mk (List.replicate 221 'a')))])) =
       .ok (false, ["brief_rationale must be <= 220 characters"])) :=
  ⟨⟨by decide, rfl, by decide, by decide⟩,
   validate_brief_rationale_boundary _ _ _ (by decide) rfl (by decide) (by decide)⟩

theorem tool_prefix_ne_empty (idx : Nat) : ("tool_" ++ toString idx) ≠ "" := by
  intro h
  have h2 := congrArg String.length h
  simp [String.length_append] at h2
  exact absurd h2.1 (by decide)

theorem normalizeToolItem_normalized (idx : Nat) (item : Json) :
    toolItemNormalized (normalizeToolItem idx item) = true := by
  cases item with
  | obj f =>
      have hset : Json.lookupF (Json.setKey f "tool_id"
          (.str ("tool_" ++ toString idx))) "tool_id" =
          some (.str ("tool_" ++ toString idx)) := Json.lookupF_setKey_self f _ _
      simp only [normalizeToolItem]
      cases h : Json.lookupF f "tool_id" with
      | none =>
          simp [toolItemNormalized, hset, Json.truthy, tool_prefix_ne_empty idx]
      | some v =>
          by_cases hv : v.truthy = true
          · simp [toolItemNormalized, hv, h]
          · simp only [Bool.not_eq_true] at hv
            simp only [hv, if_false]
            simp [toolItemNormalized, hset, Json.truthy, tool_prefix_ne_empty idx]
  | null => rfl
  | bool b => rfl
  | num q => rfl
  | str s => rfl
  | arr l => rfl

theorem normalizeToolItem_of_normalized (idx : Nat) (item : Json)
    (h : toolItemNormalized item = true) : normalizeToolItem idx item = item := by
  cases item with
  | obj f =>
      simp only [toolItemNormalized] at h
      simp only [normalizeToolItem]
      cases hl : Json.lookupF f "tool_id" with
      | none => rw [hl] at h; cases h
      | some v =>
          rw [hl] at h
          have h' : v.truthy = true := h
          simp [h']
  | null => rfl
  | bool b => rfl
  | num q => rfl
  | str s => rfl
  | arr l => rfl

theorem enumFrom_map_normalize_all (n : Nat) (items : List Json) :
    ((List.enumFrom n items).map
      (fun p => normalizeToolItem p.1 p.2)).all toolItemNormalized = true := by
  induction items generalizing n with
  | nil => rfl
  | cons x xs ih =>
      simp only [List.enumFrom, List.map, List.all_cons, Bool.and_eq_true]
      exact ⟨normalizeToolItem_normalized n x, ih (n + 1)⟩

theorem enumFrom_map_of_all_normalized (n : Nat) (items : List Json)
    (h : items.all toolItemNormalized = true) :
    (List.enumFrom n items).map (fun p => normalizeToolItem p.1 p.2) = items := by
  induction items generalizing n with
  | nil => rfl
  | cons x xs ih =>
      simp only [List.all_cons, Bool.and_eq_true] at h
      simp only [List.enumFrom, List.map]
      rw [normalizeToolItem_of_normalized n x h.1, ih (n + 1) h.2]

theorem ensureMetaConfidence_meta_normalized (fields : List (String × Json)) :
    ∀ m, Json.lookupF (ensureMetaConfidence fields) "meta" = some (.obj m) →
      Json.hasKeyF m "confidence" = true := by
  intro m hm
  unfold ensureMetaConfidence at hm
  cases h : Json.lookupF fields "meta" with
  | none =>
      rw [h] at hm
      simp only at hm
      rw [h] at hm; cases hm
  | some v =>
      rw [h] at hm
      cases v with
      | obj m0 =>
          simp only at hm
          by_cases hc : Json.hasKeyF m0 "confidence" = true
          · rw [if_pos hc, h] at hm
            cases hm
            exact hc
          · rw [if_neg hc] at hm
            rw [Json.lookupF_setKey_self] at hm
            cases hm
            simp only [Bool.not_eq_true, Json.hasKeyF_false_iff] at hc
            simp [Json.hasKeyF, Json.lookupF_append, hc, Json.lookupF]
      | null => simp only at hm; rw [h] at hm; cases hm
      | bool b => simp only at hm; rw [h] at hm; cases hm
      | num q => simp only at hm; rw [h] at hm; cases hm
      | str s => simp only at hm; rw [h] at hm; cases hm
      | arr l => simp only at hm; rw [h] at hm; cases hm

theorem ensureToolIds_preserves_meta (fields : List (String × Json)) :
    Json.lookupF (ensureToolIds fields) "meta" = Json.lookupF fields "meta" := by
  unfold ensureToolIds
  split
  · split
    · rw [Json.lookupF_setKey_ne _ _ _ _ (by decide)]
    · rfl
  · rfl

theorem ensureToolIds_preserves_state (fields : List (String × Json)) :
    Json.lookupF (ensureToolIds fields) "state" = Json.lookupF fields "state" := by
  unfold ensureToolIds
  split
  · split
    · rw [Json.lookupF_setKey_ne _ _ _ _ (by decide)]
    · rfl
  · rfl

theorem ensureToolIds_output_normalized (fields : List (String × Json)) :
    ∀ items, Json.lookupF (ensureToolIds fields) "tools" = some (.arr items) →
      ((Json.lookupF (ensureToolIds fields) "state").getD .null).isStrEq "tools" = true →
      items.all toolItemNormalized = true := by
  intro items hit hst
  rw [ensureToolIds_preserves_state] at hst
  unfold ensureToolIds at hit
  split at hit
  · rename_i hcond
    split at hit
    · rename_i items0 h0
      rw [Json.lookupF_setKey_self] at hit
      cases hit
      simpa [List.enum] using enumFrom_map_normalize_all 0 items0
    · rename_i hnoarr
      exact absurd hit (hnoarr _)
  · rename_i hcond
    exact absurd ⟨hst, by simp [Json.hasKeyF, hit]⟩ hcond

theorem ensureMetaConfidence_of_normalized (fields : List (String × Json))
    (h : ∀ m, Json.lookupF fields "meta" = some (.obj m) →
      Json.hasKeyF m "confidence" = true) :
    ensureMetaConfidence fields = fields := by
  unfold ensureMetaConfidence
  cases hm : Json.lookupF fields "meta" with
  | none => rfl
  | some v =>
      cases v with
      | obj m0 => simp [h m0 hm]
      | null => rfl
      | bool b => rfl
      | num q => rfl
      | str s => rfl
      | arr l => rfl

theorem ensureToolIds_of_normalized (fields : List (String × Json))
    (h : ∀ items, Json.lookupF fields "tools" = some (.arr items) →
      ((Json.lookupF fields "state").getD .null).isStrEq "tools" = true →
      items.all toolItemNormalized = true) :
    ensureToolIds fields = fields := by
  unfold ensureToolIds
  split
  · rename_i hcond
    obtain ⟨hst, hkey⟩ := hcond
    cases ht : Json.lookupF fields "tools" with
    | none => simp [Json.hasKeyF, ht] at hkey
    | some v =>
        cases v with
        | arr items =>
            simp only
            rw [List.enum, enumFrom_map_of_all_normalized 0 items (h items ht hst)]
            exact Json.setKey_lookup_same fields "tools" (.arr items) ht
        | null => rfl
        | bool b => rfl
        | num q => rfl
        | str s => rfl
        | obj g => rfl
  · rfl

/-- C9: normalize_envelope is idempotent: applying it a second time
    changes nothing (after the first pass meta.confidence exists and
    every tools element carries a truthy tool_id; non-dict inputs raise
    in both compositions). -/
theorem normalize_envelope_idempotent (E : Json) :
    (normalize_envelope E).bind normalize_envelope = normalize_envelope E := by
  cases E with
  | obj fields =>
      simp only [normalize_envelope, Except.bind]
      have hmetaN : ∀ m,
          Json.lookupF (ensureToolIds (ensureMetaConfidence fields)) "meta" =
            some (.obj m) → Json.hasKeyF m "confidence" = true := by
        rw [ensureToolIds_preserves_meta]
        exact ensureMetaConfidence_meta_normalized fields
      rw [ensureMetaConfidence_of_normalized _ hmetaN]
      rw [ensureToolIds_of_normalized _ (fun items hit hst =>
        ensureToolIds_output_normalized (ensureMetaConfidence fields) items hit hst)]
  | null => rfl
  | bool b => rfl
  | num q => rfl
  | str s => rfl
  | arr l => rfl

theorem validate_ok_valid_nil (e : Json) (l : List String)
    (h : validate_envelope e = .ok (true, l)) : l = [] := by
  unfold validate_envelope at h
  cases hve : validate_errors e with
  | error e0 => rw [hve] at h; cases h
  | ok l0 =>
      rw [hve] at h
      simp only [Except.ok.injEq, Prod.mk.injEq] at h
      rw [← h.2, ← List.isEmpty_iff, h.1]

/-- C1: for every model of json.loads and every LLM response text, the
    decide pipeline (parse_llm_response, then normalize_envelope, then
    validate_envelope, inside LLMClient.decide) returns either an
    envelope that validate_envelope accepts with no errors, or the
    result of create_error_envelope; it is a total function of the
    response text (the try/except in decide turns every exception of
    the pipeline into an api_error envelope). -/
theorem decide_validates_or_error (loads : String → Option Json)
    (text : String) :
    validate_envelope (LLMClient_decide loads text) = .ok (true, []) ∨
    ∃ m t, LLMClient_decide loads text = create_error_envelope m t := by
  rcases hp : parse_llm_response loads text with msg | r
  · right
    exact ⟨"LLM response parse failed: " ++ msg, "parse_error",
      by simp [LLMClient_decide, hp]⟩
  · rcases hn : normalize_envelope r with e | env
    · right
      exact ⟨"LLM API error: " ++ e, "api_error",
        by simp [LLMClient_decide, hp, hn]⟩
    · rcases hv : validate_envelope env with e | p
      · right
        exact ⟨"LLM API error: " ++ e, "api_error",
          by simp [LLMClient_decide, hp, hn, hv]⟩
      · obtain ⟨valid, errs⟩ := p
        cases valid
        · right
          exact ⟨"Envelope validation failed: " ++ String.intercalate "; " errs,
            "validation_error", by simp [LLMClient_decide, hp, hn, hv]⟩
        · left
          have hd : LLMClient_decide loads text = env := by
            simp [LLMClient_decide, hp, hn, hv]
          have hnil := validate_ok_valid_nil env errs hv
          rw [hd, hv, hnil]

theorem tagApplicable_iff (user_id : String) (user_roles : List String)
    (org_id : String) (t : Tag) :
    tagApplicable user_id user_roles org_id t = true ↔
      ((t.payload.config.assigned_users = [] ∨
        user_id ∈ t.payload.config.assigned_users ∨
        "*" ∈ t.payload.config.assigned_users) ∧
       (t.payload.config.assigned_roles = [] ∨
        ∃ r ∈ user_roles, r ∈ t.payload.config.assigned_roles) ∧
       (t.payload.config.org_scope = "" ∨
        t.payload.config.org_scope = org_id)) := by
  unfold tagApplicable
  dsimp only
  split
  · rename_i h
    simp only [Bool.and_eq_true, Bool.not_eq_true'] at h
    simp only [Bool.false_eq_true, false_iff]
    rintro ⟨husers, _, _⟩
    rcases husers with hc | hc | hc
    · rw [hc] at h; simp at h
    · have := h.1.2; simp_all
    · have := h.2; simp_all
  · rename_i h1
    split
    · rename_i h
      simp only [Bool.and_eq_true, Bool.not_eq_true'] at h
      simp only [Bool.false_eq_true, false_iff]
      rintro ⟨_, hroles, _⟩
      rcases hroles with hc | ⟨r, hr, hrl⟩
      · rw [hc] at h; simp at h
      · have := h.2; simp at this
        exact absurd hrl (this r hr)
    · rename_i h2
      split
      · rename_i h
        simp only [Bool.and_eq_true] at h
        simp only [Bool.false_eq_true, false_iff]
        rintro ⟨_, _, horg⟩
        rcases horg with hc | hc
        · rw [hc] at h; simp at h
        · simp [hc] at h
      · rename_i h3
        simp only [true_iff]
        refine ⟨?_, ?_, ?_⟩
        · by_contra hc
          push_neg at hc
          apply h1
          simp only [Bool.and_eq_true, Bool.not_eq_true']
          refine ⟨⟨?_, ?_⟩, ?_⟩ <;> simp_all [List.isEmpty_iff]
        · by_contra hc
          push_neg at hc
          apply h2
          simp only [Bool.and_eq_true, Bool.not_eq_true']
          constructor <;> simp_all [List.isEmpty_iff]
        · by_contra hc
          push_neg at hc
          apply h3
          simp only [Bool.and_eq_true]
          constructor <;> simp_all

theorem mem_insertByPriorityDesc (x a : Tag) (l : List Tag) :
    a ∈ insertByPriorityDesc x l ↔ a = x ∨ a ∈ l := by
  induction l with
  | nil => simp [insertByPriorityDesc]
  | cons y ys ih =>
      simp only [insertByPriorityDesc]
      split
      · rw [List.mem_cons, ih, List.mem_cons]
        tauto
      · rw [List.mem_cons, List.mem_cons]

theorem mem_sortByPriorityDesc (a : Tag) (l : List Tag) :
    a ∈ sortByPriorityDesc l ↔ a ∈ l := by
  induction l with
  | nil => simp [sortByPriorityDesc]
  | cons x xs ih =>
      simp only [sortByPriorityDesc, mem_insertByPriorityDesc, ih, List.mem_cons]

theorem sorted_insertByPriorityDesc (x : Tag) (l : List Tag)
    (h : List.Sorted
      (fun a b => b.payload.config.priority ≤ a.payload.config.priority) l) :
    List.Sorted (fun a b => b.payload.config.priority ≤ a.payload.config.priority)
      (insertByPriorityDesc x l) := by
  induction l with
  | nil => simp [insertByPriorityDesc]
  | cons y ys ih =>
      simp only [List.sorted_cons] at h
      simp only [insertByPriorityDesc]
      split
      · rename_i hlt
        rw [List.sorted_cons]
        refine ⟨?_, ih h.2⟩
        intro b hb
        rcases (mem_insertByPriorityDesc x b ys).mp hb with rfl | hb
        · exact le_of_lt hlt
        · exact h.1 b hb
      · rename_i hge
        push_neg at hge
        rw [List.sorted_cons]
        refine ⟨?_, by rw [List.sorted_cons]; exact h⟩
        intro b hb
        rcases List.mem_cons.mp hb with rfl | hb
        · exact hge
        · exact le_trans (h.1 b hb) hge

theorem sorted_sortByPriorityDesc (l : List Tag) :
    List.Sorted (fun a b => b.payload.config.priority ≤ a.payload.config.priority)
      (sortByPriorityDesc l) := by
  induction l with
  | nil => simp [sortByPriorityDesc]
  | cons x xs ih => exact sorted_insertByPriorityDesc x _ ih

theorem filter_insertByPriorityDesc (x : Tag) (l : List Tag) (p : Int) :
    (insertByPriorityDesc x l).filter
        (fun t => decide (t.payload.config.priority = p)) =
      if x.payload.config.priority = p then
        x :: l.filter (fun t => decide (t.payload.config.priority = p))
      else l.filter (fun t => decide (t.payload.config.priority = p)) := by
  induction l with
  | nil => simp [insertByPriorityDesc, List.filter_cons]
  | cons y ys ih =>
      simp only [insertByPriorityDesc]
      split
      · rename_i hlt
        by_cases hx : x.payload.config.priority = p
        · have hy : ¬ (y.payload.config.priority = p) := by omega
          simp [List.filter_cons, hx, hy, ih]
        · simp [List.filter_cons, ih, hx]
      · by_cases hx : x.payload.config.priority = p
        · simp [List.filter_cons, hx]
        · simp [List.filter_cons, hx]

theorem filter_sortByPriorityDesc (l : List Tag) (p : Int) :
    (sortByPriorityDesc l).filter
        (fun t => decide (t.payload.config.priority = p)) =
      l.filter (fun t => decide (t.payload.config.priority = p)) := by
  induction l with
  | nil => rfl
  | cons x xs ih =>
      simp only [sortByPriorityDesc, filter_insertByPriorityDesc, ih]
      by_cases hx : x.payload.config.priority = p
      · simp [List.filter_cons, hx]
      · simp [List.filter_cons, hx]

/-- C5: resolve_tags_for_user returns exactly the tags passing the three
    scope conditions (users, roles, org), in priority-descending order,
    and stably: for every priority value, the sublist at that priority
    equals the filtered store's sublist (original relative order). -/
theorem resolve_tags_for_user_spec (store : List Tag) (user_id : String)
    (user_roles : List String) (org_id : String) :
    (∀ t, t ∈ resolve_tags_for_user store user_id user_roles org_id ↔
       t ∈ store ∧
       (t.payload.config.assigned_users = [] ∨
        user_id ∈ t.payload.config.assigned_users ∨
        "*" ∈ t.payload.config.assigned_users) ∧
       (t.payload.config.assigned_roles = [] ∨
        ∃ r ∈ user_roles, r ∈ t.payload.config.assigned_roles) ∧
       (t.payload.config.org_scope = "" ∨ t.payload.config.org_scope = org_id)) ∧
    List.Sorted (fun a b => b.payload.config.priority ≤ a.payload.config.priority)
      (resolve_tags_for_user store user_id user_roles org_id) ∧
    (∀ p : Int, (resolve_tags_for_user store user_id user_roles org_id).filter
        (fun t => decide (t.payload.config.priority = p)) =
      (store.filter (tagApplicable user_id user_roles org_id)).filter
        (fun t => decide (t.payload.config.priority = p))) := by
  refine ⟨?_, ?_, ?_⟩
  · intro t
    rw [resolve_tags_for_user, mem_sortByPriorityDesc, List.mem_filter,
      tagApplicable_iff]
  · exact sorted_sortByPriorityDesc _
  · intro p
    rw [resolve_tags_for_user, filter_sortByPriorityDesc]

/-- C6: with tags enabled, the Agent invokes the tool executor for tool
    name t exactly when the union of allowed_tools over the resolved
    tags is empty or contains t; otherwise _execute_single_tool
    returns, without invoking the executor, the failed observation with
    error message "Tool \x27<t>\x27 not allowed by current permissions". -/
theorem execute_single_tool_permissions (tags : List Tag)
    (exec_single : Json → Json → Json) (envelope : Json) (t : String)
    (htool : (envelope.lookup "tool").getD .null = .str t) :
    ((Agent_execute_single_tool true tags exec_single envelope).1 = true ↔
      ((tags.map (fun tg => tg.payload.config.allowed_tools)).flatten = [] ∨
       t ∈ (tags.map (fun tg => tg.payload.config.allowed_tools)).flatten)) ∧
    ((Agent_execute_single_tool true tags exec_single envelope).1 = true →
      (Agent_execute_single_tool true tags exec_single envelope).2 =
        exec_single (.str t) ((envelope.lookup "arguments").getD (.obj []))) ∧
    ((Agent_execute_single_tool true tags exec_single envelope).1 = false →
      (Agent_execute_single_tool true tags exec_single envelope).2 =
        .obj [("success", .bool false), ("tool", .str t),
              ("error", .str ("Tool \x27" ++ t
                  ++ "\x27 not allowed by current permissions")),
              ("duration_ms", .num 0)]) := by
  have hcond : validate_tool_access (.str t) tags = true ↔
      ((tags.map (fun tg => tg.payload.config.allowed_tools)).flatten = [] ∨
       t ∈ (tags.map (fun tg => tg.payload.config.allowed_tools)).flatten) := by
    simp [validate_tool_access, get_allowed_tools]
  by_cases hv : validate_tool_access (.str t) tags = true
  · have hrun : Agent_execute_single_tool true tags exec_single envelope =
        (true, exec_single (.str t) ((envelope.lookup "arguments").getD (.obj []))) := by
      simp [Agent_execute_single_tool, htool, hv]
    rw [hrun]
    refine ⟨?_, ?_, ?_⟩
    · simpa using hcond.mp hv
    · intro _; rfl
    · intro hc; simp at hc
  · have hv' : validate_tool_access (.str t) tags = false := by
      simpa using hv
    have hrun : Agent_execute_single_tool true tags exec_single envelope =
        (false, .obj [("success", .bool false), ("tool", .str t),
          ("error", .str ("Tool \x27" ++ t
              ++ "\x27 not allowed by current permissions")),
          ("duration_ms", .num 0)]) := by
      simp [Agent_execute_single_tool, htool, hv', Json.pystr]
    rw [hrun]
    refine ⟨?_, ?_, ?_⟩
    · simp only [Bool.false_eq_true, false_iff]
      intro hc
      exact hv (hcond.mpr hc)
    · intro hc; simp at hc
    · intro _; rfl

/-- Concrete inputs for the C6 witness: one tag restricting to
    read_file, an envelope calling create_file, a trivial executor. -/
def c6Tag : Tag :=
  { tag := "tool_read", kind := TagKind.tool,
    payload := { meta := { name := "read" },
                 config := { allowed_tools := ["read_file"] },
                 content := "" } }

def c6Env : Json := .obj [("tool", .str "create_file")]

def c6Exec : Json → Json → Json := fun _ _ => Json.null

/-- C6, witness. -/
theorem execute_single_tool_permissions_witness :
    ((c6Env.lookup "tool").getD .null = .str "create_file") ∧
    (((Agent_execute_single_tool true [c6Tag] c6Exec c6Env).1 = true ↔
      (([c6Tag].map (fun tg => tg.payload.config.allowed_tools)).flatten = [] ∨
       "create_file" ∈ ([c6Tag].map (fun tg => tg.payload.config.allowed_tools)).flatten)) ∧
     ((Agent_execute_single_tool true [c6Tag] c6Exec c6Env).1 = true →
      (Agent_execute_single_tool true [c6Tag] c6Exec c6Env).2 =
        c6Exec (.str "create_file") ((c6Env.lookup "arguments").getD (.obj []))) ∧
     ((Agent_execute_single_tool true [c6Tag] c6Exec c6Env).1 = false →
      (Agent_execute_single_tool true [c6Tag] c6Exec c6Env).2 =
        .obj [("success", .bool false), ("tool", .str "create_file"),
              ("error", .str "Tool \x27create_file\x27 not allowed by current permissions"),
              ("duration_ms", .num 0)])) :=
  ⟨rfl, execute_single_tool_permissions [c6Tag] c6Exec c6Env "create_file" rfl⟩

theorem obsSet_not_mem (acc : List (String × Obs)) (k : String) (v : Obs)
    (h : k ∉ acc.map Prod.fst) : obsSet acc k v = acc ++ [(k, v)] := by
  induction acc with
  | nil => rfl
  | cons p rest ih =>
      obtain ⟨k0, v0⟩ := p
      simp only [List.map, List.mem_cons] at h
      push_neg at h
      simp only [obsSet]
      rw [if_neg (fun hh => h.1 hh.symm)]
      rw [ih h.2]
      rfl

theorem batch_foldl_eq (exec_single : String → Json → Obs) :
    ∀ (tools : List ToolCallItem) (acc : List (String × Obs)),
      (tools.map ToolCallItem.tool_id).Nodup →
      (∀ it ∈ tools, it.tool_id ∉ acc.map Prod.fst) →
      tools.foldl
          (fun a it => obsSet a it.tool_id (exec_single it.tool it.arguments)) acc =
        acc ++ tools.map (fun it => (it.tool_id, exec_single it.tool it.arguments)) := by
  intro tools
  induction tools with
  | nil => intro acc _ _; simp
  | cons it rest ih =>
      intro acc hnd hfresh
      simp only [List.map, List.nodup_cons] at hnd
      simp only [List.foldl]
      rw [obsSet_not_mem acc it.tool_id _ (hfresh it (List.mem_cons_self it rest))]
      rw [ih (acc ++ [(it.tool_id, exec_single it.tool it.arguments)]) hnd.2 ?_]
      · simp
      · intro it2 h2
        simp only [List.map_append, List.mem_append]
        push_neg
        refine ⟨hfresh it2 (List.mem_cons_of_mem it h2), ?_⟩
        simp only [List.map, List.mem_singleton]
        intro hc
        exact hnd.1 (hc ▸ List.mem_map_of_mem ToolCallItem.tool_id h2)

/-- C4: for every request list with pairwise-distinct tool_ids and every
    executor, execute_batch returns results keyed exactly by the
    request's tool_ids, a count equal to the number of entries, and
    all_success true exactly when every member observation succeeded. -/
theorem execute_batch_spec (exec_single : String → Json → Obs)
    (tools : List ToolCallItem)
    (hnodup : (tools.map ToolCallItem.tool_id).Nodup) :
    (∀ k, k ∈ (execute_batch exec_single tools).results.map Prod.fst ↔
       k ∈ tools.map ToolCallItem.tool_id) ∧
    (execute_batch exec_single tools).count = tools.length ∧
    ((execute_batch exec_single tools).all_success = true ↔
      ∀ it ∈ tools, (exec_single it.tool it.arguments).success = true) := by
  have hres : (execute_batch exec_single tools).results =
      tools.map (fun it => (it.tool_id, exec_single it.tool it.arguments)) := by
    have := batch_foldl_eq exec_single tools [] hnodup (by simp)
    simpa [execute_batch] using this
  refine ⟨?_, ?_, ?_⟩
  · intro k
    rw [hres]
    simp [List.mem_map]
  · show (execute_batch exec_single tools).results.length = tools.length
    rw [hres, List.length_map]
  · show ((execute_batch exec_single tools).results.all
        (fun r => r.2.success)) = true ↔ _
    rw [hres]
    simp [List.all_eq_true]

/-- C4, witness. -/
theorem execute_batch_spec_witness :
    (([⟨"a", "ok", Json.null⟩, ⟨"b", "fail", Json.null⟩] :
        List ToolCallItem).map ToolCallItem.tool_id).Nodup ∧
    ((∀ k, k ∈ (execute_batch (fun t _ => ⟨t = "ok", Json.null⟩)
          [⟨"a", "ok", Json.null⟩, ⟨"b", "fail", Json.null⟩]).results.map Prod.fst ↔
       k ∈ ([⟨"a", "ok", Json.null⟩, ⟨"b", "fail", Json.null⟩] :
          List ToolCallItem).map ToolCallItem.tool_id) ∧
     (execute_batch (fun t _ => ⟨t = "ok", Json.null⟩)
        [⟨"a", "ok", Json.null⟩, ⟨"b", "fail", Json.null⟩]).count = 2 ∧
     ((execute_batch (fun t _ => ⟨t = "ok", Json.null⟩)
        [⟨"a", "ok", Json.null⟩, ⟨"b", "fail", Json.null⟩]).all_success = true ↔
      ∀ it ∈ ([⟨"a", "ok", Json.null⟩, ⟨"b", "fail", Json.null⟩] :
          List ToolCallItem),
        ((fun (t : String) (_ : Json) => (⟨t = "ok", Json.null⟩ : Obs))
          it.tool it.arguments).success = true)) :=
  ⟨by decide, execute_batch_spec _ _ (by decide)⟩

theorem check_budgets_true (cfg : AgentConfig) (te : Int → Bool)
    (c t : Int) (h : check_budgets cfg te c t = true) :
    c < cfg.max_cycles ∧ t < cfg.max_total_tokens := by
  unfold check_budgets at h
  split at h
  · cases h
  · split at h
    · cases h
    · omega

theorem run_loop_budget (cfg : AgentConfig) (llm : Int → Json)
    (te : Int → Bool) (so mo : Json → Json) :
    ∀ (n : Nat) (c t : Int) (obs : Option Json) (res : Int × Int × Json),
      (cfg.max_cycles - c).toNat ≤ n →
      c ≤ cfg.max_cycles → t ≤ cfg.max_total_tokens →
      Agent_run_loop cfg llm te so mo c t obs = .ok res →
      res.1 ≤ cfg.max_cycles ∧ res.2.1 ≤ cfg.max_total_tokens := by
  intro n
  induction n using Nat.strong_induction_on with
  | _ n ih =>
    intro c t obs res hfuel hc ht hrun
    rw [Agent_run_loop.eq_def] at hrun
    split at hrun
    · cases hrun
      exact ⟨hc, ht⟩
    · rename_i hcheck
      have hck : check_budgets cfg te c t = true := by
        by_contra hcc
        exact hcheck hcc
      have hlt := check_budgets_true cfg te c t hck
      dsimp only at hrun
      split at hrun
      · simp at hrun
      · split at hrun
        · simp at hrun
        · split at hrun
          · simp at hrun
          · split at hrun
            · cases hrun
              exact ⟨by omega, ht⟩
            · exact ih ((cfg.max_cycles - (c + 1)).toNat)
                (by omega) (c + 1) t _ res (le_refl _) (by omega) ht hrun

/-- C3: whenever Agent.run returns (for any LLM oracle, any time-check
    oracle and any tool observation oracles), cycles_used is at most
    max_cycles and tokens_used is at most max_total_tokens, for every
    configuration with nonnegative budgets (config.py __post_init__
    requires max_cycles at least 1; tokens_used is initialised to 0 and
    never incremented by any code path).  The budget check at the top of
    each cycle uses strict inequality and cycles_used is incremented
    exactly once per cycle after the check passes, as in the loop
    definition. -/
theorem Agent_run_budgets (cfg : AgentConfig) (llm : Int → Json)
    (te : Int → Bool) (so mo : Json → Json)
    (hc : 0 ≤ cfg.max_cycles) (ht : 0 ≤ cfg.max_total_tokens) :
    ∀ r, Agent_run cfg llm te so mo = .ok r →
      r.cycles ≤ cfg.max_cycles ∧ r.tokens ≤ cfg.max_total_tokens := by
  intro r hr
  unfold Agent_run at hr
  cases hl : Agent_run_loop cfg llm te so mo 0 0 none with
  | error e => rw [hl] at hr; cases hr
  | ok trip =>
      obtain ⟨cyc, tok, fin⟩ := trip
      have hb := run_loop_budget cfg llm te so mo
        (cfg.max_cycles - 0).toNat 0 0 none (cyc, tok, fin)
        (le_refl _) hc ht hl
      rw [hl] at hr
      dsimp only at hr
      cases hst : pyGet fin "state" .null with
      | error e => rw [hst] at hr; simp at hr
      | ok st =>
          rw [hst] at hr
          simp only [Except.ok.injEq] at hr
          rw [← hr]
          exact hb

/-- Concrete inputs for the C3 witness: a two-cycle budget and an LLM
    that immediately replies with a terminal envelope. -/
def c3cfg : AgentConfig :=
  { max_cycles := 2, max_total_tokens := 100,
    max_time_seconds_truthy := false, enable_tags := false,
    auto_approve := false, enable_multi_tool := true }

def c3llm : Int → Json := fun _ => .obj [("state", .str "reply"),
  ("conversation", .obj [("utterance", .str "hi")]),
  ("meta", .obj [("continue", .bool false), ("stop_reason", .str "user_reply")])]

def c3res : RunResult :=
  { success := true, final_envelope := c3llm 0, cycles := 1, tokens := 0 }

/-- C3, witness. -/
theorem Agent_run_budgets_witness :
    (0 ≤ c3cfg.max_cycles ∧ 0 ≤ c3cfg.max_total_tokens ∧
     Agent_run c3cfg c3llm (fun _ => false) (fun _ => .null) (fun _ => .null) =
       .ok c3res) ∧
    (c3res.cycles ≤ c3cfg.max_cycles ∧ c3res.tokens ≤ c3cfg.max_total_tokens) :=
  ⟨⟨by decide, by decide, by rw [Agent_run.eq_def, Agent_run_loop.eq_def]; rfl⟩,
   Agent_run_budgets c3cfg c3llm (fun _ => false) (fun _ => .null) (fun _ => .null)
     (by decide) (by decide) c3res
     (by rw [Agent_run.eq_def, Agent_run_loop.eq_def]; rfl)⟩

/-- C2 counterexample: the claim says the dispatcher never invokes a
    tool with a dangerous name unless the arguments contain
    approved=true; dispatching tool="bash" directly (not through
    mcp_call) in STDIO mode reaches the generic branch of
    execute_envelope_tool and calls the stdio client although the empty
    arguments carry no approved key, instead of returning the
    approval_required dict. -/
theorem execute_envelope_tool_bypass_cex :
    "bash" ∈ DANGEROUS_TOOLS ∧
    Json.hasKeyF ([] : List (String × Json)) "approved" = false ∧
    execute_envelope_tool ⟨true, false, false⟩ [] "bash" (.obj []) =
      .callStdio (.str "bash") (.obj []) :=
  ⟨by decide, rfl, by rw [execute_envelope_tool_eq]; rfl⟩

theorem dangerous_ne_empty (n : String) (h : n ∈ DANGEROUS_TOOLS) : n ≠ "" := by
  fin_cases h <;> decide

/-- C2 amended: the approval gate covers exactly the mcp_call path in
    STDIO/SSE mode: for a dispatch of tool="mcp_call" whose arguments
    name a dangerous tool and whose inner arguments dict has no truthy
    "approved" entry, the dispatcher returns the approval_required dict
    and performs no client call; a direct dispatch of a dangerous tool
    name bypasses the gate. -/
theorem mcp_call_dangerous_gated (fl : Flags) (servers : List (String × String))
    (af : List (String × Json)) (n : String) (pf : List (String × Json))
    (hdirect : fl.use_direct_mcp = false)
    (htrans : (fl.use_mcp_stdio || fl.use_mcp_sse) = true)
    (hname : Json.lookupF af "name" = some (.str n))
    (hdng : n ∈ DANGEROUS_TOOLS)
    (hparams : mcpToolArgs af = .obj pf)
    (happ : ((Json.lookupF pf "approved").getD .null).truthy = false) :
    execute_envelope_tool fl servers "mcp_call" (.obj af) =
      .value (.obj [("approval_required", .bool true),
        ("reason", .str ("High-risk MCP tool \x27" ++ n
            ++ "\x27 requires human approval"))]) := by
  have hw : pyContains "workflow".toList "mcp_call".toList = false := by decide
  have hstep : dispatchStep fl servers "mcp_call" (.obj af) =
      .inl (mcpCallTransport fl servers af) := by
    simp only [dispatchStep, hdirect]
    rw [if_neg (by decide), if_neg (by decide)]
    simp only [hw, Bool.false_eq_true, if_false, reduceIte]
    rw [if_neg (by decide)]
  rw [execute_envelope_tool_eq, hstep]
  have hne := dangerous_ne_empty n hdng
  have hnt : (Json.str n).truthy = true := by simp [Json.truthy, hne]
  simp [mcpCallTransport, htrans, hname, hparams, happ, hdng, hnt, Json.pystr]

/-- C2 amended, witness. -/
theorem mcp_call_dangerous_gated_witness :
    ((⟨true, false, false⟩ : Flags).use_direct_mcp = false ∧
     ((⟨true, false, false⟩ : Flags).use_mcp_stdio ||
      (⟨true, false, false⟩ : Flags).use_mcp_sse) = true ∧
     Json.lookupF [("name", Json.str "bash"), ("arguments", Json.obj [])] "name" =
       some (.str "bash") ∧
     "bash" ∈ DANGEROUS_TOOLS ∧
     mcpToolArgs [("name", Json.str "bash"), ("arguments", Json.obj [])] = .obj [] ∧
     ((Json.lookupF ([] : List (String × Json)) "approved").getD .null).truthy = false) ∧
    execute_envelope_tool ⟨true, false, false⟩ [] "mcp_call"
        (.obj [("name", Json.str "bash"), ("arguments", Json.obj [])]) =
      .value (.obj [("approval_required", .bool true),
        ("reason", .str "High-risk MCP tool \x27bash\x27 requires human approval")]) :=
  ⟨⟨rfl, rfl, rfl, by decide, rfl, rfl⟩,
   mcp_call_dangerous_gated ⟨true, false, false⟩ []
     [("name", Json.str "bash"), ("arguments", Json.obj [])] "bash" []
     rfl rfl rfl (by decide) rfl rfl⟩
